import Mathlib

/-!
# MongoFrames factory engine: a shallow embedding

This file embeds the `Factory` orchestrator of
`mongoframes/factory/__init__.py` and the maker primitives exercised by
`tests/factory/makers/test_makers.py`, and proves the specified properties
about them.

The `Factory` class is translated directly from the source.  Python's
side effects are made explicit:

* a mutable `Blueprint` object becomes a state type `σ` threaded through
  the calls, with the blueprint's operations given as pure functions on
  that state;
* the observable actions (`blueprint.reset()`, `blueprint.assemble(...)`,
  signal sends, the bulk insert call) are recorded in an event trace so
  that "reset is called exactly once" or "no storage operation happens"
  are provable statements;
* a raised exception becomes an `Except` error value that the caller
  receives.

The maker classes (`Maker`, `Cycle`, `ListOf`, `DictOf`, `Unique`,
`Sequence`, `Static`, `Lambda`) are not part of the sources available
here — only their tests are — so they are modelled from the spec, each
with a doc comment saying so.
-/

namespace MongoFrames

/-- Observable events emitted while a `Factory` method runs.  `δ` is the
type of documents, names of blinker signals are strings as in the source. -/
inductive FEvent (δ : Type) where
  | reset
  | assembled (d : δ)
  | finishedDoc (d : δ)
  | signalSent (name : String)
  | insertManyCall
  deriving DecidableEq, Repr

/-- `true` on the events that touch storage or fire hooks: used to state
that `Factory.assemble` performs no storage operation. -/
def FEvent.isStorage {δ : Type} : FEvent δ → Bool
  | .signalSent _ => true
  | .insertManyCall => true
  | _ => false

/-- `true` exactly on the `reset` event. -/
def FEvent.isReset {δ : Type} : FEvent δ → Bool
  | .reset => true
  | _ => false

/-- The blueprint collaborator used by `Factory`.  `σ` is the blueprint's
mutable state, `δ` the document type, `φ` the frame (record) type and `π`
the type of the presets argument.  `reset`, `assemble` and `finish` embed
`Blueprint.reset`, `Blueprint.assemble(presets)` and
`Blueprint.finish(document, presets)`; `ensureFrames` embeds
`frame_cls._ensure_frames` and `insertMany` the fallible bulk insert
`frame_cls.insert_many` (an exception becomes an `Except.error`). -/
structure Blueprint (σ δ φ π : Type) where
  reset : σ → σ
  assemble : σ → π → δ × σ
  finish : σ → δ → π → δ × σ
  ensureFrames : List δ → List φ
  insertMany : List φ → Except String (List φ)

/-- The quota argument of `Factory.assemble`: the source coerces it with
`int(quota)`, so the only capability the factory needs is an integer
value.  Any int-convertible object is represented by its `toInt`. -/
structure Quota where
  toInt : Int
  deriving DecidableEq, Repr

/-- `Factory(presets)`: holds the presets passed to blueprint calls. -/
structure Factory (π : Type) where
  presets : π

/-- The loop body of `Factory.assemble`:
`for i in range(0, n): documents.append(blueprint.assemble(self.presets))`,
returning the documents in order, the trace of the calls, and the final
blueprint state. -/
def Factory.assembleLoop {σ δ φ π : Type} (f : Factory π) (bp : Blueprint σ δ φ π) :
    Nat → σ → List δ × List (FEvent δ) × σ
  | 0, s => ([], [], s)
  | n + 1, s =>
      let r := bp.assemble s f.presets
      let rest := f.assembleLoop bp n r.2
      (r.1 :: rest.1, .assembled r.1 :: rest.2.1, rest.2.2)

/-- `Factory.assemble(blueprint, quota)` from the source: resets the
blueprint, then assembles `int(quota)` documents
(`range(0, int(quota))` iterates `max 0 (int quota)` times). -/
def Factory.assemble {σ δ φ π : Type} (f : Factory π) (bp : Blueprint σ δ φ π)
    (s : σ) (quota : Quota) : List δ × List (FEvent δ) × σ :=
  let s0 := bp.reset s
  let r := f.assembleLoop bp quota.toInt.toNat s0
  (r.1, .reset :: r.2.1, r.2.2)

/-- The state of the blueprint after `n` further `assemble` calls. -/
def Blueprint.stateAfter {σ δ φ π : Type} (bp : Blueprint σ δ φ π) (p : π) :
    σ → Nat → σ
  | s, 0 => s
  | s, n + 1 => bp.stateAfter p (bp.assemble s p).2 n

/-- The document produced by the `i`-th (0-indexed) call to
`blueprint.assemble(presets)` starting from state `s`. -/
def Blueprint.nthAssemble {σ δ φ π : Type} (bp : Blueprint σ δ φ π) (p : π)
    (s : σ) (i : Nat) : δ :=
  (bp.assemble (bp.stateAfter p s i) p).1

/-- The loop body of `Factory.finish`: one `blueprint.finish(document,
presets)` call per pre-assembled document, in order. -/
def Factory.finishLoop {σ δ φ π : Type} (f : Factory π) (bp : Blueprint σ δ φ π) :
    List δ → σ → List δ × List (FEvent δ) × σ
  | [], s => ([], [], s)
  | d :: ds, s =>
      let r := bp.finish s d f.presets
      let rest := f.finishLoop bp ds r.2
      (r.1 :: rest.1, .finishedDoc r.1 :: rest.2.1, rest.2.2)

/-- `Factory.finish(blueprint, documents)` from the source: resets the
blueprint once and finishes each document in order. -/
def Factory.finish {σ δ φ π : Type} (f : Factory π) (bp : Blueprint σ δ φ π)
    (s : σ) (docs : List δ) : List δ × List (FEvent δ) × σ :=
  let s0 := bp.reset s
  let r := f.finishLoop bp docs s0
  (r.1, .reset :: r.2.1, r.2.2)

/-- `Factory.populate(blueprint, documents)` from the source: finish the
documents, convert them to frames, send `factory_insert`, bulk-insert,
send `factory_inserted`.  The function body ends without a `return`
statement, so on success the Python value returned is `None`, modelled as
`Except.ok none`; an exception raised by `insert_many` propagates as
`Except.error` and the statements after it do not run.  The trace and
final state are returned alongside so the hook firing is observable. -/
def Factory.populate {σ δ φ π : Type} (f : Factory π) (bp : Blueprint σ δ φ π)
    (s : σ) (docs : List δ) : Except String (Option δ) × List (FEvent δ) × σ :=
  let r := f.finish bp s docs
  let frames := bp.ensureFrames r.1
  let tr := r.2.1 ++ [.signalSent "factory_insert", .insertManyCall]
  match bp.insertMany frames with
  | .error e => (.error e, tr, r.2.2)
  | .ok _ => (.ok none, tr ++ [.signalSent "factory_inserted"], r.2.2)

/-- Modelled from the spec: the `Maker` base class
(`mongoframes/factory/makers/__init__.py`) is not among the available
sources.  Per the spec a maker "has mutable current document context (the
enclosing document being assembled)"; only that context field is needed
here. -/
structure Maker (δ : Type) where
  document : Option δ
  deriving DecidableEq, Repr

/-- Modelled from the spec: the scoped `target(document)` context manager
of the missing `Maker` base class "sets `self.document` to the given
enclosing document for the duration of a block, guaranteed to restore it
to `None` on exit (even on error)".  The block `body` runs on the maker
with the document set and may fail (`Except.error` embeds a raised
exception); on either exit path the returned maker has `document = none`. -/
def Maker.target {δ ε α : Type} (m : Maker δ) (d : δ)
    (body : Maker δ → Except ε α) : Except ε α × Maker δ :=
  let entered : Maker δ := { m with document := some d }
  let result := body entered
  (result, { entered with document := none })

/-- Modelled from the spec: a generic stateful maker, the shape shared by
the missing concrete maker classes.  `σ` is its internal mutable state,
`ω` its intermediate (assemble-stage) output; `step` embeds one
`_assemble()` call, `reset` the `reset()` hook. -/
structure MakerM (σ ω : Type) where
  step : σ → ω × σ
  reset : σ → σ

/-- Modelled from the spec: `Static(v)` "returns configured value" and is
stateless; its generation step always yields `v`. -/
def staticM {σ ω : Type} (v : ω) : MakerM σ ω :=
  { step := fun s => (v, s), reset := fun s => s }

/-- Modelled from the spec: `Sequence('test-{index}')`
(`mongoframes/factory/makers/text.py` is not among the available
sources): emits the template with an incrementing index as its state. -/
def sequenceM (template : Nat → String) : MakerM Nat String :=
  { step := fun i => (template i, i + 1), reset := fun _ => 1 }

/-- Modelled from the spec: the `Cycle` selection maker
(`mongoframes/factory/makers/selections.py` is not among the available
sources).  It holds a fixed pool of items and a cursor; assembling
"returns next index into a fixed pool, wrapping around"; the "stateful
cursor survives across calls, reset restores cursor to 0". -/
structure Cycle (α : Type) where
  items : List α
  itemIndex : Nat
  deriving DecidableEq, Repr

/-- `Cycle(items)`: cursor starts at 0. -/
def Cycle.init {α : Type} (items : List α) : Cycle α :=
  { items := items, itemIndex := 0 }

/-- Modelled from the spec: `Cycle.reset()` "restores cursor to 0". -/
def Cycle.reset {α : Type} (c : Cycle α) : Cycle α :=
  { c with itemIndex := 0 }

/-- Modelled from the spec: one `Cycle` assemble step returns the current
index into the pool and advances the cursor, wrapping at the pool size. -/
def Cycle.assembleStep {α : Type} (c : Cycle α) : Nat × Cycle α :=
  let i := c.itemIndex
  let next := if i + 1 < c.items.length then i + 1 else 0
  (i, { c with itemIndex := next })

/-- Modelled from the spec: `Cycle` finish "maps index back to the pool
value" `P[index]`; an out-of-range index is a lookup failure (`none`). -/
def Cycle.finish {α : Type} (c : Cycle α) (idx : Nat) : Option α :=
  c.items.get? idx

/-- The `Cycle` maker packaged as a generic stateful maker. -/
def cycleM (α : Type) : MakerM (Cycle α) Nat :=
  { step := Cycle.assembleStep, reset := Cycle.reset }

/-- Modelled from the spec: the `ListOf` maker
(`mongoframes/factory/makers/__init__.py` is not among the available
sources).  It holds a wrapped maker's state, a quota `n`, and the
`reset_maker` flag (default `False`). -/
structure ListOf (σ ω : Type) where
  maker : MakerM σ ω
  state : σ
  quota : Nat
  resetMaker : Bool

/-- Iterate a maker's `step` `n` times, collecting the outputs in order. -/
def MakerM.stepN {σ ω : Type} (m : MakerM σ ω) : σ → Nat → List ω × σ
  | s, 0 => ([], s)
  | s, n + 1 =>
      let r := m.step s
      let rest := m.stepN r.2 n
      (r.1 :: rest.1, rest.2)

/-- Modelled from the spec: one outer `ListOf._assemble()` call
"repeatedly invokes a wrapped maker for a count drawn from a Quota,
collecting an ordered sequence of intermediate values; optional
`reset_maker` flag resets the wrapped maker before each outer call". -/
def ListOf.assemble {σ ω : Type} (l : ListOf σ ω) : List ω × ListOf σ ω :=
  let s0 := if l.resetMaker then l.maker.reset l.state else l.state
  let r := l.maker.stepN s0 l.quota
  (r.1, { l with state := r.2 })

/-- Modelled from the spec: an entry of a `DictOf` maker
(`mongoframes/factory/makers/__init__.py` is not among the available
sources): "for each key, value is either a literal JSON-safe value
(untouched by assemble, passed through at finish) or a wrapped maker
(resolved normally)".  A wrapped maker is carried with its two stages:
`assembleV` embeds `_assemble()` (already `none` for a non-assembler)
and `finishV` embeds `_finish(value)`. -/
inductive DEntry (α : Type) where
  | literal (v : α)
  | maker (assembleV : Option α) (finishV : Option α → Option α)

/-- Modelled from the spec: `DictOf._assemble()` — a literal entry is
untouched by assemble (yields `None`), a maker entry is resolved
normally. -/
def DictOf.assemble {α : Type} (entries : List (String × DEntry α)) :
    List (String × Option α) :=
  entries.map fun kv =>
    match kv.2 with
    | .literal _ => (kv.1, none)
    | .maker a _ => (kv.1, a)

/-- Modelled from the spec: `DictOf._finish(assembled)` mirrors
assemble's structural split — a literal entry is passed through at
finish, a maker entry is finished on its assembled value. -/
def DictOf.finish {α : Type} (entries : List (String × DEntry α))
    (assembled : List (String × Option α)) : List (String × Option α) :=
  entries.map fun kv =>
    match kv.2 with
    | .literal v => (kv.1, some v)
    | .maker _ fin =>
        (kv.1, fin ((assembled.lookup kv.1).getD none))

/-- Modelled from the spec: `Lambda(lambda doc: 'bar')` as a `DEntry`
maker — assemble "calls user function with current document", and an
assembler-only maker's finish passes the assembled value through. -/
def lambdaEntry {α : Type} (f : Option α → α) : DEntry α :=
  .maker (some (f none)) (fun v => v)

/-- Modelled from the spec: the fixed attempt ceiling of the `Unique`
maker — "source fixes it at a constant". -/
def uniqueMaxAttempts : Nat := 1000

/-- Modelled from the spec: the `Unique` wrapper maker
(`mongoframes/factory/makers/__init__.py` is not among the available
sources).  It "maintains a set of already-emitted values seeded
optionally with an exclusion set" and "delegates to a wrapped maker but
rejects — and retries — any output already produced since
construction/reset; fails after a bounded number of attempts". -/
structure Unique (σ ω : Type) where
  maker : MakerM σ ω
  state : σ
  exclude : List ω
  seen : List ω

/-- `Unique(maker, exclude)`: the seen-set starts seeded with the
exclusion set. -/
def Unique.init {σ ω : Type} (m : MakerM σ ω) (s : σ) (exclude : List ω) :
    Unique σ ω :=
  { maker := m, state := s, exclude := exclude, seen := exclude }

/-- Modelled from the spec: `Unique.reset()` clears the values emitted
since construction, restoring the seen-set to its seeded exclusion set,
"and allows the same value again without failure". -/
def Unique.reset {σ ω : Type} (u : Unique σ ω) : Unique σ ω :=
  { u with state := u.maker.reset u.state, seen := u.exclude }

/-- Modelled from the spec: the bounded retry loop of `Unique` — draw
from the wrapped maker, reject values already in the seen-set, and give
up with a contract-violation error once the attempt ceiling is
exhausted. -/
def Unique.attempt {σ ω : Type} [DecidableEq ω] (m : MakerM σ ω)
    (seen : List ω) : Nat → σ → Except String (ω × σ)
  | 0, _ => .error "unable to assemble a unique value"
  | fuel + 1, s =>
      let r := m.step s
      if r.1 ∈ seen then Unique.attempt m seen fuel r.2
      else .ok r

/-- Modelled from the spec: one `Unique` generation step (the stage at
which the wrapped maker participates): retry up to the fixed ceiling,
record the emitted value in the seen-set, and signal exhaustion as an
error that propagates to the caller. -/
def Unique.assemble {σ ω : Type} [DecidableEq ω] (u : Unique σ ω) :
    Except String (ω × Unique σ ω) :=
  match Unique.attempt u.maker u.seen uniqueMaxAttempts u.state with
  | .error e => .error e
  | .ok r => .ok (r.1, { u with state := r.2, seen := r.1 :: u.seen })

/-- Run `n` successive `Unique` generation steps, collecting the emitted
values in order and stopping at the first failure. -/
def Unique.runN {σ ω : Type} [DecidableEq ω] (u : Unique σ ω) :
    Nat → List ω × Unique σ ω
  | 0 => ([], u)
  | n + 1 =>
      match u.assemble with
      | .error _ => ([], u)
      | .ok r =>
          let rest := r.2.runN n
          (r.1 :: rest.1, rest.2)

/-! ## Lemmas about the factory's assemble loop -/

lemma Factory.assembleLoop_length {σ δ φ π : Type} (f : Factory π)
    (bp : Blueprint σ δ φ π) :
    ∀ (n : Nat) (s : σ), (f.assembleLoop bp n s).1.length = n
  | 0, _ => rfl
  | n + 1, s => by
      simp [Factory.assembleLoop, Factory.assembleLoop_length f bp n]

lemma Factory.assembleLoop_trace {σ δ φ π : Type} (f : Factory π)
    (bp : Blueprint σ δ φ π) :
    ∀ (n : Nat) (s : σ),
      (f.assembleLoop bp n s).2.1 = (f.assembleLoop bp n s).1.map FEvent.assembled
  | 0, _ => rfl
  | n + 1, s => by
      simp [Factory.assembleLoop, Factory.assembleLoop_trace f bp n]

lemma Factory.assembleLoop_get {σ δ φ π : Type} (f : Factory π)
    (bp : Blueprint σ δ φ π) :
    ∀ (n i : Nat) (s : σ), i < n →
      (f.assembleLoop bp n s).1[i]? = some (bp.nthAssemble f.presets s i)
  | n + 1, 0, s, _ => by
      simp [Factory.assembleLoop, Blueprint.nthAssemble, Blueprint.stateAfter]
  | n + 1, i + 1, s, h => by
      have ih := Factory.assembleLoop_get f bp n i (bp.assemble s f.presets).2
        (by omega)
      simp [Factory.assembleLoop, ih, Blueprint.nthAssemble, Blueprint.stateAfter]

lemma trace_of_assembled_no_storage {δ : Type} :
    ∀ ds : List δ, ∀ e ∈ ds.map FEvent.assembled, e.isStorage = false := by
  intro ds e he
  rcases List.mem_map.mp he with ⟨d, _, rfl⟩
  rfl

lemma trace_of_assembled_no_reset {δ : Type} :
    ∀ ds : List δ, (ds.map FEvent.assembled).countP FEvent.isReset = 0 := by
  intro ds
  rw [List.countP_eq_zero]
  intro e he
  rcases List.mem_map.mp he with ⟨d, _, rfl⟩
  simp [FEvent.isReset]

lemma Factory.finishLoop_trace {σ δ φ π : Type} (f : Factory π)
    (bp : Blueprint σ δ φ π) :
    ∀ (ds : List δ) (s : σ),
      (f.finishLoop bp ds s).2.1 = (f.finishLoop bp ds s).1.map FEvent.finishedDoc
  | [], _ => rfl
  | d :: ds, s => by
      simp [Factory.finishLoop, Factory.finishLoop_trace f bp ds]

/-! ## C1: `Factory.assemble` resets once then assembles `int(quota)` documents -/

/-- C1: for every blueprint and quota with `int(quota) ≥ 0`,
`Factory.assemble(blueprint, quota)` returns an ordered list of exactly
`int(quota)` documents whose `i`-th element is the result of the `i`-th
call to `blueprint.assemble(presets)` after the single initial
`blueprint.reset()`; the trace opens with the reset, contains exactly one
reset, and contains no storage operation (no signal, no insert). -/
theorem factory_assemble_spec {σ δ φ π : Type} (f : Factory π)
    (bp : Blueprint σ δ φ π) (s : σ) (q : Quota) (h : 0 ≤ q.toInt) :
    ((f.assemble bp s q).1.length : Int) = q.toInt ∧
    (∀ i, i < q.toInt.toNat →
      (f.assemble bp s q).1[i]?
        = some (bp.nthAssemble f.presets (bp.reset s) i)) ∧
    (f.assemble bp s q).2.1.head? = some FEvent.reset ∧
    (f.assemble bp s q).2.1.countP FEvent.isReset = 1 ∧
    (∀ e ∈ (f.assemble bp s q).2.1, e.isStorage = false) := by
  refine ⟨?_, ?_, ?_, ?_, ?_⟩
  · rw [show (f.assemble bp s q).1 = (f.assembleLoop bp q.toInt.toNat (bp.reset s)).1
      from rfl]
    rw [Factory.assembleLoop_length]
    exact Int.toNat_of_nonneg h
  · intro i hi
    exact Factory.assembleLoop_get f bp q.toInt.toNat i (bp.reset s) hi
  · rfl
  · show (FEvent.reset :: (f.assembleLoop bp q.toInt.toNat (bp.reset s)).2.1).countP
      FEvent.isReset = 1
    rw [Factory.assembleLoop_trace, List.countP_cons_of_pos _ _ (by rfl),
      trace_of_assembled_no_reset]
  · intro e he
    rcases List.mem_cons.mp he with rfl | he'
    · rfl
    · rw [Factory.assembleLoop_trace] at he'
      exact trace_of_assembled_no_storage _ e he'

/-- A concrete blueprint over natural numbers used to witness the
factory theorems: its state is a counter, assembling emits the counter
value and increments it, the bulk insert succeeds. -/
def natBp : Blueprint Nat Nat Nat Unit :=
  { reset := fun _ => 0
    assemble := fun s _ => (s * 10, s + 1)
    finish := fun s d _ => (d + 1, s)
    ensureFrames := fun ds => ds
    insertMany := fun fs => .ok fs }

/-- The factory instance (empty presets) used in the witnesses. -/
def natFactory : Factory Unit := { presets := () }

/-- Witness for C1 at `quota = 5`: the hypothesis `0 ≤ 5` holds and the
theorem yields the length and the third document of the run. -/
theorem factory_assemble_spec_witness :
    ((natFactory.assemble natBp 7 ⟨5⟩).1.length : Int) = (5 : Int) ∧
    (natFactory.assemble natBp 7 ⟨5⟩).1[2]?
      = some (natBp.nthAssemble () (natBp.reset 7) 2) :=
  ⟨(factory_assemble_spec natFactory natBp 7 ⟨5⟩ (by decide)).1,
   (factory_assemble_spec natFactory natBp 7 ⟨5⟩ (by decide)).2.1 2 (by decide)⟩

/-! ## C10: non-positive quotas -/

/-- C10: `Factory.assemble` coerces its quota with `int(quota)` (any
int-convertible quota is represented by its `Quota.toInt`); whenever that
integer is ≤ 0 the returned document list is empty, and the trace is
exactly the single `blueprint.reset()` call — reset still happens exactly
once although nothing is assembled. -/
theorem factory_assemble_nonpositive {σ δ φ π : Type} (f : Factory π)
    (bp : Blueprint σ δ φ π) (s : σ) (q : Quota) (h : q.toInt ≤ 0) :
    (f.assemble bp s q).1 = [] ∧ (f.assemble bp s q).2.1 = [FEvent.reset] := by
  have h0 : q.toInt.toNat = 0 := Int.toNat_of_nonpos h
  constructor
  · show (f.assembleLoop bp q.toInt.toNat (bp.reset s)).1 = []
    rw [h0]; rfl
  · show FEvent.reset :: (f.assembleLoop bp q.toInt.toNat (bp.reset s)).2.1
      = [FEvent.reset]
    rw [h0]; rfl

/-- Witness for C10 at `int(quota) = -3`. -/
theorem factory_assemble_nonpositive_witness :
    (natFactory.assemble natBp 7 ⟨-3⟩).1 = [] ∧
    (natFactory.assemble natBp 7 ⟨-3⟩).2.1 = [FEvent.reset] :=
  factory_assemble_nonpositive natFactory natBp 7 ⟨-3⟩ (by decide)

/-! ## C9: `populate` returns `None` -/

/-- C9: whenever `Factory.populate` completes without an exception its
Python return value is `None`: the finished documents, the frames from
`_ensure_frames` and the instances returned by the bulk insert are all
discarded, so the caller cannot observe the inserted records through the
return value. -/
lemma Factory.populate_insert_error {σ δ φ π : Type} (f : Factory π)
    (bp : Blueprint σ δ φ π) (s : σ) (docs : List δ) (e : String)
    (hins : bp.insertMany (bp.ensureFrames (f.finish bp s docs).1) = .error e) :
    f.populate bp s docs
      = (.error e,
         (f.finish bp s docs).2.1
           ++ [FEvent.signalSent "factory_insert", FEvent.insertManyCall],
         (f.finish bp s docs).2.2) := by
  unfold Factory.populate
  dsimp only
  rw [hins]

lemma Factory.populate_insert_ok {σ δ φ π : Type} (f : Factory π)
    (bp : Blueprint σ δ φ π) (s : σ) (docs : List δ) (fs : List φ)
    (hins : bp.insertMany (bp.ensureFrames (f.finish bp s docs).1) = .ok fs) :
    f.populate bp s docs
      = (.ok none,
         ((f.finish bp s docs).2.1
           ++ [FEvent.signalSent "factory_insert", FEvent.insertManyCall])
           ++ [FEvent.signalSent "factory_inserted"],
         (f.finish bp s docs).2.2) := by
  unfold Factory.populate
  dsimp only
  rw [hins]

theorem factory_populate_returns_none {σ δ φ π : Type} (f : Factory π)
    (bp : Blueprint σ δ φ π) (s : σ) (docs : List δ) (v : Option δ)
    (h : (f.populate bp s docs).1 = .ok v) : v = none := by
  cases hins : bp.insertMany (bp.ensureFrames (f.finish bp s docs).1) with
  | error e =>
      rw [Factory.populate_insert_error f bp s docs e hins] at h
      exact absurd h (by simp)
  | ok fs =>
      rw [Factory.populate_insert_ok f bp s docs fs hins] at h
      simpa using h.symm

/-- Witness for C9: a successful populate run on the concrete blueprint
returns `ok`, and the theorem forces the carried value to be `none`. -/
theorem factory_populate_returns_none_witness :
    ((natFactory.populate natBp 0 [5, 6]).1 = .ok (none : Option Nat)) ∧
    (none : Option Nat) = none :=
  ⟨rfl,
   factory_populate_returns_none natFactory natBp 0 [5, 6] none rfl⟩

/-! ## C2: hooks around the bulk insert -/

/-- A concrete blueprint whose bulk insert always fails, exhibiting the
behaviour of `populate` on an insert exception. -/
def failBp : Blueprint Nat Nat Nat Unit :=
  { reset := fun _ => 0
    assemble := fun s _ => (s, s + 1)
    finish := fun s d _ => (d, s)
    ensureFrames := fun ds => ds
    insertMany := fun _ => .error "insert failed" }

/-- C2 counterexample: when the bulk insert fails, the `factory_insert`
(pre-insert) signal has been sent but the `factory_inserted`
(post-insert) signal is NOT sent — the exception propagates before the
post-hook line runs — contradicting the claim that both hooks fire
unconditionally even when the insert fails. -/
theorem factory_populate_posthook_counterexample :
    (natFactory.populate failBp 0 [1]).1 = .error "insert failed" ∧
    FEvent.signalSent "factory_insert" ∈ (natFactory.populate failBp 0 [1]).2.1 ∧
    FEvent.signalSent "factory_inserted" ∉ (natFactory.populate failBp 0 [1]).2.1 := by
  refine ⟨rfl, ?_, ?_⟩ <;> decide

/-- C2 (amended): on every `populate` call the pre-insert signal
`factory_insert` is sent before the bulk insert; if the insert fails the
failure propagates to the caller and the already-sent pre-insert signal
is not rolled back (it stays in the trace), while the post-insert signal
`factory_inserted` is NOT sent; if the insert succeeds the post-insert
signal is sent. -/
theorem factory_populate_hooks {σ δ φ π : Type} (f : Factory π)
    (bp : Blueprint σ δ φ π) (s : σ) (docs : List δ) :
    (FEvent.signalSent "factory_insert" ∈ (f.populate bp s docs).2.1) ∧
    (∀ e, bp.insertMany (bp.ensureFrames (f.finish bp s docs).1) = .error e →
      (f.populate bp s docs).1 = .error e ∧
      FEvent.signalSent "factory_inserted" ∉ (f.populate bp s docs).2.1) ∧
    (∀ fs, bp.insertMany (bp.ensureFrames (f.finish bp s docs).1) = .ok fs →
      FEvent.signalSent "factory_inserted" ∈ (f.populate bp s docs).2.1) := by
  have hfin : ∀ nm : String,
      FEvent.signalSent nm ∉ (f.finish bp s docs).2.1 := by
    intro nm hmem
    have : FEvent.signalSent nm
        ∈ FEvent.reset :: (f.finishLoop bp docs (bp.reset s)).2.1 := hmem
    rcases List.mem_cons.mp this with heq | hmem'
    · exact FEvent.noConfusion heq
    · rw [Factory.finishLoop_trace] at hmem'
      rcases List.mem_map.mp hmem' with ⟨d, _, heq⟩
      exact FEvent.noConfusion heq
  refine ⟨?_, ?_, ?_⟩
  · cases hins : bp.insertMany (bp.ensureFrames (f.finish bp s docs).1) with
    | error e =>
        rw [Factory.populate_insert_error f bp s docs e hins]
        exact List.mem_append_right _ (by simp)
    | ok fs =>
        rw [Factory.populate_insert_ok f bp s docs fs hins]
        exact List.mem_append_left _ (List.mem_append_right _ (by simp))
  · intro e hins
    rw [Factory.populate_insert_error f bp s docs e hins]
    refine ⟨rfl, ?_⟩
    intro hmem
    rcases List.mem_append.mp hmem with hmem' | hmem'
    · exact hfin _ hmem'
    · simp at hmem'
  · intro fs hins
    rw [Factory.populate_insert_ok f bp s docs fs hins]
    exact List.mem_append_right _ (by simp)

/-- Witness for C2's amended theorem on the failing-insert blueprint: the
error propagates and the post-insert signal is absent from the trace. -/
theorem factory_populate_hooks_witness :
    (natFactory.populate failBp 0 [1]).1 = .error "insert failed" ∧
    FEvent.signalSent "factory_inserted" ∉ (natFactory.populate failBp 0 [1]).2.1 :=
  (factory_populate_hooks natFactory failBp 0 [1]).2.1 "insert failed" rfl

/-! ## C4: the `target` context scope -/

/-- C4: inside `m.target(d)` the body observes the maker with `document`
set to `d`, and on every exit path — normal completion or an exception —
the maker's `document` is restored to `None`; in particular a body that
raises still leaves `document = none` behind while its error
propagates. -/
theorem maker_target_spec {δ ε α : Type} (m : Maker δ) (d : δ)
    (body : Maker δ → Except ε α) :
    (m.target d body).1 = body { document := some d } ∧
    ({ document := some d } : Maker δ).document = some d ∧
    (m.target d body).2.document = none ∧
    (∀ e : ε, body { document := some d } = .error e →
      m.target d body = (.error e, { document := none })) := by
  refine ⟨rfl, rfl, rfl, ?_⟩
  intro e he
  simp [Maker.target, he]

/-- A concrete body for the `target` witness: reads the scoped document
and raises. -/
def demoBody : Maker Nat → Except String Nat :=
  fun mk => if mk.document = some 3 then .error "boom" else .ok 0

/-- Witness for C4: with a body that observes `document = 3` and raises,
the scope still hands back a maker with `document = none` and lets the
error propagate. -/
theorem maker_target_spec_witness :
    ((Maker.mk (some 7)).target 3 demoBody).2.document = none ∧
    (Maker.mk (some 7)).target 3 demoBody
      = (.error "boom", { document := none }) :=
  ⟨(maker_target_spec (Maker.mk (some 7)) 3 demoBody).2.2.1,
   (maker_target_spec (Maker.mk (some 7)) 3 demoBody).2.2.2 "boom" rfl⟩

/-! ## C5: the Cycle maker -/

lemma cycle_stepN_from {α : Type} (P : List α) (h : 0 < P.length) :
    ∀ (n j : Nat), j < P.length →
      (cycleM α).stepN (Cycle.mk P j) n
        = ((List.range n).map (fun i => (j + i) % P.length),
           Cycle.mk P ((j + n) % P.length))
  | 0, j, hj => by
      simp [MakerM.stepN, Nat.mod_eq_of_lt hj]
  | n + 1, j, hj => by
      have hnext : (if j + 1 < P.length then j + 1 else 0) = (j + 1) % P.length := by
        by_cases hc : j + 1 < P.length
        · simp [hc, Nat.mod_eq_of_lt hc]
        · have hcc : j + 1 = P.length := by omega
          simp [hc, hcc]
      have hj2 : (j + 1) % P.length < P.length := Nat.mod_lt _ h
      have ih := cycle_stepN_from P h n ((j + 1) % P.length) hj2
      have harith : ∀ i : Nat,
          ((j + 1) % P.length + i) % P.length = (j + (i + 1)) % P.length := by
        intro i
        rw [Nat.mod_add_mod]
        congr 1
        omega
      simp only [MakerM.stepN, cycleM, Cycle.assembleStep] at ih ⊢
      rw [hnext, ih]
      simp only [Prod.mk.injEq]
      constructor
      · rw [List.range_succ_eq_map, List.map_cons, List.map_map]
        simp only [Nat.add_zero, Nat.mod_eq_of_lt hj]
        have hf : (fun i => ((j + 1) % P.length + i) % P.length)
            = ((fun i => (j + i) % P.length) ∘ Nat.succ) := by
          funext i
          simpa using harith i
        rw [hf]
      · simp [harith n]

/-- C5: for a `Cycle` over a pool `P` of size `k > 0`, the outputs of the
first `n` assemble calls after construction (or after a reset, which
restores the initial state) are `0 % k, 1 % k, …, (n-1) % k`; the cursor
survives across calls and sits at `n % k` after `n` calls; `reset`
restores the freshly constructed maker; and `finish` maps an assembled
index `j` back to `P[j]`. -/
theorem cycle_spec {α : Type} (P : List α) (h : 0 < P.length) (n : Nat) :
    ((cycleM α).stepN (Cycle.init P) n).1
      = (List.range n).map (fun i => i % P.length) ∧
    ((cycleM α).stepN (Cycle.init P) n).2.itemIndex = n % P.length ∧
    Cycle.reset ((cycleM α).stepN (Cycle.init P) n).2 = Cycle.init P ∧
    (∀ j (hj : j < P.length),
      Cycle.finish ((cycleM α).stepN (Cycle.init P) n).2 j
        = some (P.get ⟨j, hj⟩)) := by
  have hrun := cycle_stepN_from P h n 0 h
  rw [show Cycle.init P = Cycle.mk P 0 from rfl, hrun]
  refine ⟨by simp, by simp, by simp [Cycle.reset, Cycle.init], ?_⟩
  intro j hj
  simp [Cycle.finish, List.get?_eq_get hj]

/-- Witness for C5 on the pool `[10, 20, 30]` with five calls. -/
theorem cycle_spec_witness :
    ((cycleM Nat).stepN (Cycle.init [10, 20, 30]) 5).1
      = (List.range 5).map (fun i => i % [10, 20, 30].length) ∧
    Cycle.finish ((cycleM Nat).stepN (Cycle.init [10, 20, 30]) 5).2 2
      = some ([10, 20, 30].get ⟨2, by decide⟩) :=
  ⟨(cycle_spec [10, 20, 30] (by decide) 5).1,
   (cycle_spec [10, 20, 30] (by decide) 5).2.2.2 2 (by decide)⟩

/-! ## C6: ListOf with and without reset_maker -/

lemma MakerM.stepN_add {σ ω : Type} (m : MakerM σ ω) :
    ∀ (a b : Nat) (s : σ),
      (m.stepN s (a + b)).1
        = (m.stepN s a).1 ++ (m.stepN (m.stepN s a).2 b).1 ∧
      (m.stepN s (a + b)).2 = (m.stepN (m.stepN s a).2 b).2
  | 0, b, s => by simp [MakerM.stepN]
  | a + 1, b, s => by
      have he : a + 1 + b = (a + b) + 1 := by omega
      have ih := MakerM.stepN_add m a b (m.step s).2
      rw [he]
      simp only [MakerM.stepN]
      exact ⟨by rw [ih.1]; simp, by rw [ih.2]⟩

/-- Repeated outer `_assemble()` calls on a `ListOf`, collecting each
call's output list in order. -/
def ListOf.callN {σ ω : Type} (l : ListOf σ ω) : Nat → List (List ω) × ListOf σ ω
  | 0 => ([], l)
  | k + 1 =>
      let r := l.assemble
      let rest := r.2.callN k
      (r.1 :: rest.1, rest.2)

lemma listof_continue {σ ω : Type} (m : MakerM σ ω) (n : Nat) :
    ∀ (k : Nat) (s : σ),
      ((ListOf.mk m s n false).callN k).1.flatten = (m.stepN s (k * n)).1
  | 0, s => by simp [ListOf.callN, MakerM.stepN]
  | k + 1, s => by
      have ih := listof_continue m n k (m.stepN s n).2
      have hadd := (MakerM.stepN_add m n (k * n) s).1
      simp [ListOf.callN, ListOf.assemble, ih]
      rw [show (k + 1) * n = n + k * n from by ring, hadd]

lemma listof_reset_calls {σ ω : Type} (m : MakerM σ ω) (n : Nat) :
    ∀ (k : Nat) (s : σ),
      m.reset ((m.stepN (m.reset s) n).2) = m.reset s →
      ∀ out ∈ ((ListOf.mk m s n true).callN k).1,
        out = (m.stepN (m.reset s) n).1
  | 0, s, _ => by simp [ListOf.callN]
  | k + 1, s, hq => by
      intro out hout
      simp [ListOf.callN, ListOf.assemble] at hout
      rcases hout with rfl | hrest
      · rfl
      · have hrs : m.reset ((m.stepN (m.reset s) n).2) = m.reset s := hq
        have hq2 : m.reset ((m.stepN
            (m.reset ((m.stepN (m.reset s) n).2)) n).2)
            = m.reset ((m.stepN (m.reset s) n).2) := by
          rw [hrs]
          exact hq
        have ih := listof_reset_calls m n k ((m.stepN (m.reset s) n).2) hq2
          out hrest
        rw [ih, hrs]

/-- C6: `ListOf(maker, Quota(n))` with `reset_maker` left `False`:
the concatenation of `k` consecutive outer `_assemble()` outputs is the
wrapped maker's uninterrupted sequence of `k * n` steps (no implicit
reset); with `reset_maker = True` — given that resetting after a run
returns the wrapped maker to the state a reset reaches from the start —
every outer call produces the same output, namely the run of `n` steps
from the freshly reset wrapped maker. -/
theorem listof_spec {σ ω : Type} (m : MakerM σ ω) (s : σ) (n k : Nat) :
    ((ListOf.mk m s n false).callN k).1.flatten = (m.stepN s (k * n)).1 ∧
    (m.reset ((m.stepN (m.reset s) n).2) = m.reset s →
      ∀ out ∈ ((ListOf.mk m s n true).callN k).1,
        out = (m.stepN (m.reset s) n).1) :=
  ⟨listof_continue m n k s, listof_reset_calls m n k s⟩

/-- Witness for C6: the test's configuration — a `Cycle` over a pool of
five items under a quota of six — continues across two outer calls
without `reset_maker`, and with `reset_maker` every call repeats the
first output. -/
theorem listof_spec_witness :
    ((ListOf.mk (cycleM Nat) (Cycle.init [0, 1, 2, 3, 4]) 6 false).callN 2).1.flatten
      = ((cycleM Nat).stepN (Cycle.init [0, 1, 2, 3, 4]) (2 * 6)).1 ∧
    [0, 1, 2, 3, 4, 0]
      = ((cycleM Nat).stepN (Cycle.reset (Cycle.init [0, 1, 2, 3, 4])) 6).1 :=
  ⟨(listof_spec (cycleM Nat) (Cycle.init [0, 1, 2, 3, 4]) 6 2).1,
   (listof_spec (cycleM Nat) (Cycle.init [0, 1, 2, 3, 4]) 6 2).2 (by decide)
     [0, 1, 2, 3, 4, 0] (by decide)⟩

/-! ## C7: the DictOf example -/

/-- The dictionary of the spec's example:
`DictOf({'json_type': 'foo', 'maker': Lambda(lambda doc: 'bar')})`. -/
def dictOfExample : List (String × DEntry String) :=
  [("json_type", DEntry.literal "foo"),
   ("maker", lambdaEntry (fun _ => "bar"))]

/-- C7: assembling the example leaves the literal untouched (`None`) and
resolves the wrapped maker to `'bar'`; finishing the assembled result
passes the literal `'foo'` through and keeps the maker's value. -/
theorem dictof_example_spec :
    DictOf.assemble dictOfExample
      = [("json_type", none), ("maker", some "bar")] ∧
    DictOf.finish dictOfExample (DictOf.assemble dictOfExample)
      = [("json_type", some "foo"), ("maker", some "bar")] := by
  constructor <;> rfl

/-! ## C3: Unique exhaustion on a too-small value space -/

lemma Unique.attempt_of_all_seen {σ ω : Type} [DecidableEq ω]
    (m : MakerM σ ω) (seen : List ω) (hall : ∀ t, (m.step t).1 ∈ seen) :
    ∀ (fuel : Nat) (s : σ),
      Unique.attempt m seen fuel s = .error "unable to assemble a unique value"
  | 0, _ => rfl
  | fuel + 1, s => by
      show (if (m.step s).1 ∈ seen
            then Unique.attempt m seen fuel (m.step s).2
            else .ok (m.step s)) = _
      rw [if_pos (hall s)]
      exact Unique.attempt_of_all_seen m seen hall fuel (m.step s).2

/-- C3: a `Unique` maker whose wrapped maker can only produce values
already in the seen-set fails deterministically with a contract-violation
error once the fixed attempt ceiling is spent (no hang — the retry loop
is bounded), and the error is handed to the caller, not swallowed.  For
`Unique(Static(v))`: the first generation succeeds with `v`, the second
fails with the exhaustion error, and after `reset()` (which clears the
seen values) the same value `v` is emitted again without failure. -/
theorem unique_exhaustion_spec {σ ω : Type} [DecidableEq ω] (v : ω) (s : σ) :
    (∀ u : Unique σ ω, (∀ t, (u.maker.step t).1 ∈ u.seen) →
      u.assemble = .error "unable to assemble a unique value") ∧
    (Unique.init (staticM v) s []).assemble
      = .ok (v, { Unique.init (staticM v) s [] with seen := [v] }) ∧
    ({ Unique.init (staticM v) s [] with seen := [v] } : Unique σ ω).assemble
      = .error "unable to assemble a unique value" ∧
    ({ Unique.init (staticM v) s [] with seen := [v] } : Unique σ ω).reset.assemble
      = .ok (v, { Unique.init (staticM v) s [] with seen := [v] }) := by
  have hgen : ∀ u : Unique σ ω, (∀ t, (u.maker.step t).1 ∈ u.seen) →
      u.assemble = .error "unable to assemble a unique value" := by
    intro u hall
    unfold Unique.assemble
    rw [Unique.attempt_of_all_seen u.maker u.seen hall uniqueMaxAttempts u.state]
  have hok : ∀ (u : Unique σ ω) (w : ω) (s2 : σ),
      Unique.attempt u.maker u.seen uniqueMaxAttempts u.state = .ok (w, s2) →
      u.assemble = .ok (w, { u with state := s2, seen := w :: u.seen }) := by
    intro u w s2 hatt
    unfold Unique.assemble
    rw [hatt]
  have hatt : Unique.attempt (staticM v) ([] : List ω) uniqueMaxAttempts s
      = .ok (v, s) := by
    show (if v ∈ ([] : List ω)
          then Unique.attempt (staticM v) [] (uniqueMaxAttempts - 1) s
          else .ok (v, s)) = _
    rw [if_neg (List.not_mem_nil v)]
  have hfirst : (Unique.init (staticM v) s []).assemble
      = .ok (v, { Unique.init (staticM v) s [] with seen := [v] }) :=
    hok (Unique.init (staticM v) s []) v s hatt
  have hsecond : ({ Unique.init (staticM v) s [] with seen := [v] } : Unique σ ω).assemble
      = .error "unable to assemble a unique value" := by
    apply hgen
    intro t
    show v ∈ [v]
    exact List.mem_singleton.mpr rfl
  refine ⟨hgen, hfirst, hsecond, ?_⟩
  exact hfirst

/-- Witness for C3's general conjunct: a concrete `Unique` whose wrapped
`Static` maker only produces the already-seen value fails with the
exhaustion error. -/
theorem unique_exhaustion_spec_witness :
    (Unique.init (staticM "foo") () ["foo"] : Unique Unit String).assemble
      = .error "unable to assemble a unique value" :=
  (unique_exhaustion_spec "foo" ()).1 (Unique.init (staticM "foo") () ["foo"])
    (fun _ => by simp [staticM, Unique.init])

/-! ## C8: the exclusion set is never emitted -/

lemma Unique.attempt_ok_not_seen {σ ω : Type} [DecidableEq ω]
    (m : MakerM σ ω) (seen : List ω) :
    ∀ (fuel : Nat) (s : σ) (w : ω) (s2 : σ),
      Unique.attempt m seen fuel s = .ok (w, s2) → w ∉ seen
  | 0, s, w, s2 => by
      intro h
      exact absurd h (by simp [Unique.attempt])
  | fuel + 1, s, w, s2 => by
      intro h
      have hred : Unique.attempt m seen (fuel + 1) s
          = (if (m.step s).1 ∈ seen
             then Unique.attempt m seen fuel (m.step s).2
             else .ok (m.step s)) := rfl
      rw [hred] at h
      by_cases hc : (m.step s).1 ∈ seen
      · rw [if_pos hc] at h
        exact Unique.attempt_ok_not_seen m seen fuel (m.step s).2 w s2 h
      · rw [if_neg hc] at h
        have hw : (m.step s).1 = w := by
          have := Except.ok.inj h
          exact congrArg Prod.fst this
        rw [hw] at hc
        exact hc

lemma Unique.assemble_ok_shape {σ ω : Type} [DecidableEq ω]
    (u : Unique σ ω) (w : ω) (u2 : Unique σ ω)
    (h : u.assemble = .ok (w, u2)) :
    w ∉ u.seen ∧ u2.exclude = u.exclude ∧ u2.seen = w :: u.seen := by
  unfold Unique.assemble at h
  cases hatt : Unique.attempt u.maker u.seen uniqueMaxAttempts u.state with
  | error e =>
      rw [hatt] at h
      exact absurd h (by simp)
  | ok r =>
      rw [hatt] at h
      have hr := Except.ok.inj h
      have hw : r.1 = w := congrArg Prod.fst hr
      have hu2 : ({ u with state := r.2, seen := r.1 :: u.seen } : Unique σ ω) = u2 :=
        congrArg Prod.snd hr
      refine ⟨?_, ?_, ?_⟩
      · rw [← hw]
        exact Unique.attempt_ok_not_seen u.maker u.seen uniqueMaxAttempts u.state
          r.1 r.2 (by rw [hatt, Prod.mk.eta])
      · rw [← hu2]
      · rw [← hu2, ← hw]

/-- C8: a `Unique` maker whose seen-set contains its exclusion set (as it
does at construction and after every reset) never emits a member of the
exclusion set: across any number of generation steps, every value it
produces lies outside the exclusion set it was seeded with. -/
theorem unique_never_emits_excluded {σ ω : Type} [DecidableEq ω] :
    ∀ (n : Nat) (u : Unique σ ω), (∀ x ∈ u.exclude, x ∈ u.seen) →
      ∀ w ∈ (u.runN n).1, w ∉ u.exclude
  | 0, u, _ => by simp [Unique.runN]
  | n + 1, u, hsub => by
      intro w hw
      have hred : u.runN (n + 1)
          = (match u.assemble with
             | .error _ => ([], u)
             | .ok r =>
                 let rest := r.2.runN n
                 (r.1 :: rest.1, rest.2)) := rfl
      rw [hred] at hw
      cases hass : u.assemble with
      | error e =>
          rw [hass] at hw
          simp at hw
      | ok r =>
          rw [hass] at hw
          obtain ⟨w0, u2⟩ := r
          have hshape := Unique.assemble_ok_shape u w0 u2 hass
          simp only [List.mem_cons] at hw
          rcases hw with rfl | hw2
          · intro hmem
            exact hshape.1 (hsub w hmem)
          · have hsub2 : ∀ x ∈ u2.exclude, x ∈ u2.seen := by
              intro x hx
              rw [hshape.2.2]
              rw [hshape.2.1] at hx
              exact List.mem_cons_of_mem _ (hsub x hx)
            have ih := unique_never_emits_excluded n u2 hsub2 w hw2
            rw [hshape.2.1] at ih
            exact ih

/-- The test's excluded-sequence maker:
`Unique(Sequence('test-{index}'), exclude={'test-3'})`. -/
def seqExcludeU : Unique Nat String :=
  Unique.init (sequenceM (fun i => "test-" ++ toString i)) 1 ["test-3"]

/-- Witness for C8: nine generation steps of the excluded-sequence maker
never produce `'test-3'`. -/
theorem unique_never_emits_excluded_witness :
    "test-3" ∉ (seqExcludeU.runN 9).1 :=
  fun h =>
    unique_never_emits_excluded 9 seqExcludeU (by decide) "test-3" h (by decide)

end MongoFrames
